import Mathlib

/-!
# Verification of the vcpkg HTTP binary cache storage engine

A shallow embedding of `src/main.rs` of `russelltg/vcpkg-http-binary-cache`:
a content-addressed blob store over HTTP.  Strings coming from Rust are
modelled as their UTF-8 byte sequences (`List Nat`), filesystem paths as
lists of path components, and the filesystem as a set of directories plus a
map from paths to file entries.  A Rust panic is modelled as `Option.none`
at the handler's result type.
-/

deriving instance DecidableEq for Except

namespace VcpkgCache

/-- A Rust `String`/`str`, as its UTF-8 bytes. -/
abbrev ByteStr := List Nat

/-- A filesystem path, as its list of components (`PathBuf`).  The leading
`/` of an absolute path carries no information here and is elided. -/
abbrev FsPath := List ByteStr

/-- The HTTP status codes produced by the handlers.  The human-readable
message half of each handler's `(StatusCode, String)` error tuple is pure
logging output and is not modelled; no property concerns it. -/
inductive StatusCode
  | ok
  | badRequest
  | notFound
  | internalServerError
deriving DecidableEq, Repr

/-- One on-disk file: its content and whether the process may open it for
reading (models POSIX read permission; `readable := false` makes `open`
fail with `PermissionDenied` while `stat` still succeeds). -/
structure FileEntry where
  content : List Nat
  readable : Bool
deriving DecidableEq, Repr

/-- The filesystem state shared by all requests: the set of existing
directories and the file entries, keyed by path. -/
structure FS where
  dirs : List FsPath
  files : FsPath → Option FileEntry

/-- Error kinds of the modelled `std::io` operations (`ErrorKind`). -/
inductive IOErr
  | alreadyExists
  | permissionDenied
  | notFoundErr
  | streamErr
deriving DecidableEq, Repr

/-- Write (create or replace) the file entry at `p`. -/
def FS.setFile (fs : FS) (p : FsPath) (ent : FileEntry) : FS :=
  ⟨fs.dirs, fun q => if q = p then some ent else fs.files q⟩

/-- Delete the file entry at `p`. -/
def FS.removeFile (fs : FS) (p : FsPath) : FS :=
  ⟨fs.dirs, fun q => if q = p then none else fs.files q⟩

/-- `Path::exists` for a directory. -/
def FS.hasDir (fs : FS) (p : FsPath) : Bool := fs.dirs.contains p

/-- `std::fs::create_dir`: fails with `AlreadyExists` when the directory is
already present, otherwise creates it (non-recursively). -/
def FS.create_dir (fs : FS) (p : FsPath) : Except IOErr FS :=
  if fs.hasDir p then .error .alreadyExists else .ok ⟨p :: fs.dirs, fs.files⟩

/-- `std::fs::metadata`: `NotFound` when there is no entry, otherwise the
file length.  `stat` succeeds even on a file the process may not read;
read permission is enforced at `open`. -/
def FS.metadata (fs : FS) (p : FsPath) : Except IOErr Nat :=
  match fs.files p with
  | none => .error .notFoundErr
  | some ent => .ok ent.content.length

/-- `tokio::fs::File::open` followed by reading the whole content:
`NotFound` when absent, `PermissionDenied` when not readable. -/
def FS.openRead (fs : FS) (p : FsPath) : Except IOErr (List Nat) :=
  match fs.files p with
  | none => .error .notFoundErr
  | some ent => if ent.readable then .ok ent.content else .error .permissionDenied

/-- The bytes of the fixed `".zip"` suffix appended by `hash_to_file`. -/
def zipSuffix : ByteStr := [46, 122, 105, 112]

/-- Rust `str::is_char_boundary i`: true at 0 and at the end, and otherwise
exactly when the byte at `i` is not a UTF-8 continuation byte
(`b as i8 >= -0x40`, i.e. `b < 0x80 ∨ 0xC0 ≤ b`). -/
def isCharBoundary (s : ByteStr) (i : Nat) : Bool :=
  if i = 0 then true
  else match s[i]? with
    | some b => decide (b < 128) || decide (192 ≤ b)
    | none => decide (i = s.length)

/-- `hash_to_file(root, hash)`: reject hashes shorter than 20 bytes with
`BadRequest`, otherwise resolve to `root/&hash[..2]/(hash + ".zip")`.
The Rust byte-slice `&hash[..2]` panics when byte index 2 is not a UTF-8
character boundary of `hash`; the panic is modelled as `none`. -/
def hash_to_file (root : FsPath) (hash : ByteStr) :
    Option (Except StatusCode FsPath) :=
  if hash.length < 20 then some (.error .badRequest)
  else if isCharBoundary hash 2 then
    some (.ok (root ++ [hash.take 2, hash ++ zipSuffix]))
  else none

/-- One item of the request body's data stream
(`Result<Bytes, axum::Error>` as produced by `Body::into_data_stream`). -/
inductive StreamItem
  | chunk (data : List Nat)
  | ioErr
deriving DecidableEq, Repr

/-- `tokio::io::copy` from the `StreamReader` over the body: concatenate the
chunks in order; the first stream error aborts the copy with an I/O error
(`io::Error::other`). -/
def copyStream : List StreamItem → Except IOErr (List Nat)
  | [] => .ok []
  | .ioErr :: _ => .error .streamErr
  | .chunk d :: rest =>
    match copyStream rest with
    | .error e => .error e
    | .ok t => .ok (d ++ t)

/-- `write_stream_to_file(path, stream)`: create a uniquely named staging
file next to `path` (`NamedTempFile::new_in(path.parent().unwrap())`; the
library's randomly chosen fresh name — always `".tmp"` plus six random
characters, hence 10 bytes — is the `tmpName` parameter), stream the body
into it, and on success promote it to `path` with `fs::rename` (after
`keep()`), which atomically replaces any previous entry at `path`.  On a
stream error the `?` propagates and the `NamedTempFile` drop handler
deletes the staging file; the destination is never touched.  The returned
`Nat` is the byte count reported by the copy. -/
def write_stream_to_file (fs : FS) (path : FsPath) (tmpName : ByteStr)
    (stream : List StreamItem) : Except IOErr Nat × FS :=
  let tmpPath := path.dropLast ++ [tmpName]
  let fs1 := fs.setFile tmpPath ⟨[], true⟩
  match copyStream stream with
  | .error e => (.error e, fs1.removeFile tmpPath)
  | .ok data =>
    (.ok data.length, ((fs1.setFile tmpPath ⟨data, true⟩).removeFile tmpPath).setFile path ⟨data, true⟩)

/-- The response of a successful `cache_get`: the `Content-Length` header
value taken from `fs::metadata` and the streamed body. -/
structure GetResponse where
  contentLength : Nat
  body : List Nat
deriving DecidableEq, Repr

/-- `cache_get` (GET `/cache/{hash}`): resolve the path, read its metadata
for the `Content-Length` header, open the file and stream it.  Both the
`fs::metadata` failure and the `File::open` failure — whatever their error
kind — are mapped to status `NOT_FOUND`. -/
def cache_get (root : FsPath) (fs : FS) (hash : ByteStr) :
    Option (Except StatusCode GetResponse) :=
  match hash_to_file root hash with
  | none => none
  | some (.error e) => some (.error e)
  | some (.ok p) =>
    match fs.metadata p with
    | .error _ => some (.error .notFound)
    | .ok len =>
      match fs.openRead p with
      | .error _ => some (.error .notFound)
      | .ok content => some (.ok ⟨len, content⟩)

/-- `cache_head` (HEAD `/cache/{hash}`): resolve the path and report
`NOT_FOUND` unless `cache_path.exists()`. -/
def cache_head (root : FsPath) (fs : FS) (hash : ByteStr) :
    Option (Except StatusCode Unit) :=
  match hash_to_file root hash with
  | none => none
  | some (.error e) => some (.error e)
  | some (.ok p) =>
    if (fs.files p).isSome then some (.ok ()) else some (.error .notFound)

/-- The shard-directory phase of `cache_put`:
`if !parent.exists() { fs::create_dir(parent)? }`, with its two filesystem
accesses — the `exists()` check and the `fs::create_dir` call — taken as
two separate atomic observations: `fsCheck` is the state at the check and
`fs` the state at the creation attempt.  Any creation failure is mapped to
status `INTERNAL_SERVER_ERROR`. -/
def ensure_parent_dir (fsCheck fs : FS) (dir : FsPath) : Except StatusCode FS :=
  if fsCheck.hasDir dir then .ok fs
  else
    match fs.create_dir dir with
    | .error _ => .error .internalServerError
    | .ok fs1 => .ok fs1

/-- `cache_put` (PUT `/cache/{hash}`), with the shard-directory phase's two
filesystem observations split as in `ensure_parent_dir`; the two coincide
when no concurrent request interferes (see `cache_put`).  Any
`write_stream_to_file` failure is mapped to `INTERNAL_SERVER_ERROR`. -/
def cache_put_core (root : FsPath) (fsCheck fs : FS) (hash : ByteStr)
    (tmpName : ByteStr) (stream : List StreamItem) :
    Option (Except StatusCode Unit × FS) :=
  match hash_to_file root hash with
  | none => none
  | some (.error e) => some (.error e, fs)
  | some (.ok p) =>
    match ensure_parent_dir fsCheck fs p.dropLast with
    | .error e => some (.error e, fs)
    | .ok fs1 =>
      match write_stream_to_file fs1 p tmpName stream with
      | (.error _, fs2) => some (.error .internalServerError, fs2)
      | (.ok _, fs2) => some (.ok (), fs2)

/-- `cache_put` run without interference: both shard-directory phase
observations see the same state. -/
def cache_put (root : FsPath) (fs : FS) (hash : ByteStr) (tmpName : ByteStr)
    (stream : List StreamItem) : Option (Except StatusCode Unit × FS) :=
  cache_put_core root fs fs hash tmpName stream

/-- The asset destination path: `state.asset_root.join(hash)`, with no
validation of the caller-supplied name. -/
def asset_path (assetRoot : FsPath) (name : ByteStr) : FsPath :=
  assetRoot ++ [name]

/-- `asset_put` (PUT `/asset/{hash}`): join the name onto the asset root
and invoke the same `write_stream_to_file` used by the binary cache; any
writer failure is mapped to `INTERNAL_SERVER_ERROR`.  No shard directory is
created and no length check is applied. -/
def asset_put (assetRoot : FsPath) (fs : FS) (name : ByteStr)
    (tmpName : ByteStr) (stream : List StreamItem) :
    Except StatusCode Unit × FS :=
  match write_stream_to_file fs (asset_path assetRoot name) tmpName stream with
  | (.error _, fs2) => (.error .internalServerError, fs2)
  | (.ok _, fs2) => (.ok (), fs2)

/-- The individual atomic filesystem actions a `write_stream_to_file` run
performs, for reasoning about states a concurrent reader can observe. -/
inductive FsOp
  | createTemp (p : FsPath)
  | appendTemp (p : FsPath) (data : List Nat)
  | renameFile (src dst : FsPath)
deriving DecidableEq

/-- Apply one atomic filesystem action. -/
def FS.applyOp (fs : FS) : FsOp → FS
  | .createTemp p => fs.setFile p ⟨[], true⟩
  | .appendTemp p d =>
    match fs.files p with
    | some ent => fs.setFile p ⟨ent.content ++ d, ent.readable⟩
    | none => fs
  | .renameFile src dst =>
    match fs.files src with
    | some ent => (fs.removeFile src).setFile dst ent
    | none => fs

/-- Apply a sequence of atomic filesystem actions in order. -/
def FS.applyOps (fs : FS) (ops : List FsOp) : FS := ops.foldl FS.applyOp fs

/-- The sequence of atomic filesystem actions of one successful
`write_stream_to_file fs path tmpName` run whose stream carries `chunks`:
create the staging file next to `path`, append each chunk to it, and
finally promote it with one rename. -/
def putOps (path : FsPath) (tmpName : ByteStr) (chunks : List (List Nat)) :
    List FsOp :=
  FsOp.createTemp (path.dropLast ++ [tmpName]) ::
    (chunks.map (FsOp.appendTemp (path.dropLast ++ [tmpName])) ++
      [FsOp.renameFile (path.dropLast ++ [tmpName]) path])

/-- The bytes of the path component `".."`. -/
def dotdot : ByteStr := [46, 46]

/-- Resolution of `..` components as the operating system performs it when
the path is actually used (symbolic links are not modelled): each `..`
removes the preceding component. -/
def resolveDots (acc : FsPath) : FsPath → FsPath
  | [] => acc
  | c :: rest =>
    if c = dotdot then resolveDots acc.dropLast rest
    else resolveDots (acc ++ [c]) rest

/-- OS-level resolution of a path containing `..` components. -/
def osResolve (p : FsPath) : FsPath := resolveDots [] p

/-- `p` lies at or below `root`. -/
def isUnder (root p : FsPath) : Prop := p.take root.length = root

instance (root p : FsPath) : Decidable (isUnder root p) := by
  unfold isUnder; infer_instance

/-! ### Concrete instances used by witnesses and counterexamples -/

/-- The root directory `"/data"` of the spec scenario. -/
def dataRoot : FsPath := [[100, 97, 116, 97]]

/-- A plain 20-byte hash: 20 `'a'` bytes. -/
def aHash : ByteStr := List.replicate 20 97

/-- The spec scenario hash `"aaaaaaaaaaaaaaaaaaaaXYZ"` (23 characters). -/
def scenHash : ByteStr := List.replicate 20 97 ++ [88, 89, 90]

/-- A staging-file name of the shape the tempfile library produces:
`".tmp000000"` (always `".tmp"` plus six random characters). -/
def tmpName0 : ByteStr := [46, 116, 109, 112, 48, 48, 48, 48, 48, 48]

/-- `"€"` (bytes `E2 82 AC`) followed by 19 `'a'`s: 20 characters and 22
bytes, with byte index 2 inside the first character. -/
def euroA : ByteStr := [226, 130, 172] ++ List.replicate 19 97

/-- 20 copies of `"€"`: 20 characters and 60 bytes, with byte index 2
inside the first character. -/
def euro20 : ByteStr := (List.replicate 20 ([226, 130, 172] : List Nat)).flatten

/-- The binary-cache path of `aHash` under `dataRoot`:
`/data/aa/aaaaaaaaaaaaaaaaaaaa.zip`. -/
def aHashPath : FsPath := dataRoot ++ [aHash.take 2, aHash ++ zipSuffix]

/-- The empty filesystem. -/
def fs0 : FS := ⟨[], fun _ => none⟩

/-- A filesystem holding the object `[1, 2, 3]` at `aHashPath`, with its
shard directory present. -/
def fsA : FS :=
  ⟨[dataRoot ++ [aHash.take 2]],
    fun q => if q = aHashPath then some ⟨[1, 2, 3], true⟩ else none⟩

/-- Like `fsA`, but the stored object is not readable by the process. -/
def fsPerm : FS :=
  ⟨[dataRoot ++ [aHash.take 2]],
    fun q => if q = aHashPath then some ⟨[1, 2, 3], false⟩ else none⟩

/-- A filesystem in which the shard directory of `aHash` exists but no file
does. -/
def fsDir : FS := ⟨[dataRoot ++ [aHash.take 2]], fun _ => none⟩

/-- Asset root `"a"`. -/
def assetRoot0 : FsPath := [[97]]

/-- Asset name `"n"`. -/
def assetName0 : ByteStr := [110]

/-- A filesystem holding the asset `[1, 2, 3]` at `"a/n"`. -/
def fsAsset : FS :=
  ⟨[], fun q =>
    if q = asset_path assetRoot0 assetName0 then some ⟨[1, 2, 3], true⟩ else none⟩

/-! ## Helper lemmas -/

theorem files_setFile_self (fs : FS) (p : FsPath) (ent : FileEntry) :
    (fs.setFile p ent).files p = some ent := by
  simp [FS.setFile]

theorem files_setFile_other (fs : FS) (p q : FsPath) (ent : FileEntry)
    (h : q ≠ p) : (fs.setFile p ent).files q = fs.files q := by
  simp [FS.setFile, h]

theorem files_removeFile_self (fs : FS) (p : FsPath) :
    (fs.removeFile p).files p = none := by
  simp [FS.removeFile]

theorem files_removeFile_other (fs : FS) (p q : FsPath) (h : q ≠ p) :
    (fs.removeFile p).files q = fs.files q := by
  simp [FS.removeFile, h]

/-- `fs::create_dir` never changes the file entries. -/
theorem create_dir_ok_files {fs fs1 : FS} {p : FsPath}
    (h : fs.create_dir p = .ok fs1) : fs1.files = fs.files := by
  unfold FS.create_dir at h
  split at h
  · simp at h
  · simp only [Except.ok.injEq] at h
    subst h
    rfl

/-- The shard-directory phase never changes the file entries. -/
theorem ensure_parent_dir_ok_files {fsCheck fs fs1 : FS} {dir : FsPath}
    (h : ensure_parent_dir fsCheck fs dir = .ok fs1) : fs1.files = fs.files := by
  unfold ensure_parent_dir at h
  split at h
  · simp only [Except.ok.injEq] at h
    subst h
    rfl
  · split at h
    · simp at h
    · rename_i heq
      simp only [Except.ok.injEq] at h
      subst h
      exact create_dir_ok_files heq

/-- Inversion of a successful `hash_to_file` resolution. -/
theorem hash_to_file_ok_inv {root : FsPath} {hash : ByteStr} {p : FsPath}
    (h : hash_to_file root hash = some (.ok p)) :
    20 ≤ hash.length ∧ p = root ++ [hash.take 2, hash ++ zipSuffix] := by
  unfold hash_to_file at h
  split at h
  · simp at h
  · rename_i hlen
    split at h
    · simp only [Option.some.injEq, Except.ok.injEq] at h
      exact ⟨by omega, h.symm⟩
    · simp at h

/-- Inversion of a `hash_to_file` rejection: the only error it produces is
`BadRequest`, and only for hashes shorter than 20 bytes. -/
theorem hash_to_file_error_inv {root : FsPath} {hash : ByteStr}
    {e : StatusCode} (h : hash_to_file root hash = some (.error e)) :
    e = .badRequest ∧ hash.length < 20 := by
  unfold hash_to_file at h
  split at h
  · rename_i hlen
    simp only [Option.some.injEq, Except.error.injEq] at h
    exact ⟨h.symm, hlen⟩
  · split at h
    · simp at h
    · simp at h

/-- The staging path differs from the resolved destination path: the
staging name has 10 bytes while the destination's file name
`hash ++ ".zip"` has at least 24. -/
theorem tmpPath_ne_dest {root : FsPath} {hash tmpName : ByteStr} {p : FsPath}
    (hres : hash_to_file root hash = some (.ok p))
    (htmp : tmpName.length = 10) : p.dropLast ++ [tmpName] ≠ p := by
  obtain ⟨hlen, hp⟩ := hash_to_file_ok_inv hres
  subst hp
  intro hEq
  rw [show root ++ [hash.take 2, hash ++ zipSuffix]
      = (root ++ [hash.take 2]) ++ [hash ++ zipSuffix] by simp] at hEq
  rw [List.dropLast_concat] at hEq
  have h1 : tmpName = hash ++ zipSuffix := by
    simpa using List.append_cancel_left hEq
  have h2 : tmpName.length = hash.length + 4 := by
    rw [h1]; simp [zipSuffix]
  omega

/-- A readable entry at the resolved path makes `cache_get` return it in
full, with the content length from its metadata. -/
theorem cache_get_of_entry {root : FsPath} {fs : FS} {hash : ByteStr}
    {p : FsPath} {c : List Nat}
    (hres : hash_to_file root hash = some (.ok p))
    (hent : fs.files p = some ⟨c, true⟩) :
    cache_get root fs hash = some (.ok ⟨c.length, c⟩) := by
  unfold cache_get
  rw [hres]
  simp [FS.metadata, FS.openRead, hent]

/-- Copying an error-free stream concatenates its chunks. -/
theorem copyStream_chunks (chunks : List (List Nat)) :
    copyStream (chunks.map .chunk) = .ok chunks.flatten := by
  induction chunks with
  | nil => rfl
  | cons d rest ih => simp [copyStream, ih]

/-- Characterization of a failed `write_stream_to_file` run: the staging
file is created and then deleted by the drop handler; the destination is
never touched. -/
theorem write_stream_to_file_error {fs : FS} {path : FsPath}
    {tmpName : ByteStr} {stream : List StreamItem} {e : IOErr}
    (hcopy : copyStream stream = .error e) :
    write_stream_to_file fs path tmpName stream
      = (.error e, (fs.setFile (path.dropLast ++ [tmpName]) ⟨[], true⟩).removeFile
          (path.dropLast ++ [tmpName])) := by
  simp only [write_stream_to_file]
  rw [hcopy]

/-- Characterization of a successful `write_stream_to_file` run: the full
content is staged and then promoted onto the destination by the rename. -/
theorem write_stream_to_file_ok {fs : FS} {path : FsPath}
    {tmpName : ByteStr} {stream : List StreamItem} {data : List Nat}
    (hcopy : copyStream stream = .ok data) :
    write_stream_to_file fs path tmpName stream
      = (.ok data.length,
          (((fs.setFile (path.dropLast ++ [tmpName]) ⟨[], true⟩).setFile
            (path.dropLast ++ [tmpName]) ⟨data, true⟩).removeFile
              (path.dropLast ++ [tmpName])).setFile path ⟨data, true⟩) := by
  simp only [write_stream_to_file]
  rw [hcopy]

/-- Appending chunks to the staging file leaves every other path alone. -/
theorem applyOps_appends_frame (tmp q : FsPath) (hq : q ≠ tmp) :
    ∀ (chunks : List (List Nat)) (fs : FS),
      (fs.applyOps (chunks.map (FsOp.appendTemp tmp))).files q = fs.files q := by
  intro chunks
  induction chunks with
  | nil => intro fs; rfl
  | cons d rest ih =>
    intro fs
    have hstep : (fs.applyOp (FsOp.appendTemp tmp d)).files q = fs.files q := by
      simp only [FS.applyOp]
      cases h : fs.files tmp with
      | none => rfl
      | some ent => simp [files_setFile_other _ _ _ _ hq]
    calc (fs.applyOps ((d :: rest).map (FsOp.appendTemp tmp))).files q
        = ((fs.applyOp (FsOp.appendTemp tmp d)).applyOps
            (rest.map (FsOp.appendTemp tmp))).files q := rfl
      _ = (fs.applyOp (FsOp.appendTemp tmp d)).files q := ih _
      _ = fs.files q := hstep

/-- The whole staging phase (create the staging file, append the chunks)
leaves every other path alone. -/
theorem applyOps_stage_frame (tmp q : FsPath) (hq : q ≠ tmp)
    (chunks : List (List Nat)) (fs : FS) :
    (fs.applyOps (FsOp.createTemp tmp :: chunks.map (FsOp.appendTemp tmp))).files q
      = fs.files q := by
  calc (fs.applyOps (FsOp.createTemp tmp :: chunks.map (FsOp.appendTemp tmp))).files q
      = ((fs.setFile tmp ⟨[], true⟩).applyOps (chunks.map (FsOp.appendTemp tmp))).files q := rfl
    _ = (fs.setFile tmp ⟨[], true⟩).files q := applyOps_appends_frame tmp q hq chunks _
    _ = fs.files q := files_setFile_other _ _ _ _ hq

/-- After appending a list of chunks, the staging file holds its previous
content followed by the chunks' concatenation. -/
theorem applyOps_appends_content (tmp : FsPath) :
    ∀ (chunks : List (List Nat)) (fs : FS) (c : List Nat),
      fs.files tmp = some ⟨c, true⟩ →
      (fs.applyOps (chunks.map (FsOp.appendTemp tmp))).files tmp
        = some ⟨c ++ chunks.flatten, true⟩ := by
  intro chunks
  induction chunks with
  | nil => intro fs c h; simpa using h
  | cons d rest ih =>
    intro fs c h
    have hstep : fs.applyOp (FsOp.appendTemp tmp d)
        = fs.setFile tmp ⟨c ++ d, true⟩ := by
      simp only [FS.applyOp]
      rw [h]
    calc (fs.applyOps ((d :: rest).map (FsOp.appendTemp tmp))).files tmp
        = ((fs.applyOp (FsOp.appendTemp tmp d)).applyOps
            (rest.map (FsOp.appendTemp tmp))).files tmp := rfl
      _ = some ⟨(c ++ d) ++ rest.flatten, true⟩ := by
          rw [hstep]
          exact ih _ _ (files_setFile_self _ _ _)
      _ = some ⟨c ++ (d :: rest).flatten, true⟩ := by
          simp

/-- After the full staging phase the staging file holds exactly the
concatenation of the chunks. -/
theorem applyOps_stage_content (tmp : FsPath) (chunks : List (List Nat))
    (fs : FS) :
    (fs.applyOps (FsOp.createTemp tmp :: chunks.map (FsOp.appendTemp tmp))).files tmp
      = some ⟨chunks.flatten, true⟩ := by
  calc (fs.applyOps (FsOp.createTemp tmp :: chunks.map (FsOp.appendTemp tmp))).files tmp
      = ((fs.setFile tmp ⟨[], true⟩).applyOps (chunks.map (FsOp.appendTemp tmp))).files tmp := rfl
    _ = some ⟨[] ++ chunks.flatten, true⟩ :=
        applyOps_appends_content tmp chunks _ [] (files_setFile_self _ _ _)
    _ = some ⟨chunks.flatten, true⟩ := by simp

/-- At every intermediate point of a `putOps` run, the destination path
holds either its previous entry or the complete new object. -/
theorem putOps_take_dest (p : FsPath) (tmpName : ByteStr)
    (chunks : List (List Nat)) (fs : FS)
    (hne : p.dropLast ++ [tmpName] ≠ p) (n : Nat) :
    (fs.applyOps ((putOps p tmpName chunks).take n)).files p = fs.files p ∨
    (fs.applyOps ((putOps p tmpName chunks).take n)).files p
      = some ⟨chunks.flatten, true⟩ := by
  have hpt : p ≠ p.dropLast ++ [tmpName] := fun h => hne h.symm
  cases n with
  | zero => left; rfl
  | succ m =>
    rw [putOps, List.take_succ_cons]
    by_cases hm : m ≤ chunks.length
    · left
      rw [List.take_append_of_le_length (by simpa using hm),
        ← List.map_take]
      exact applyOps_stage_frame _ p hpt _ fs
    · right
      rw [List.take_of_length_le (by simp; omega)]
      have hstage := applyOps_stage_content (p.dropLast ++ [tmpName]) chunks fs
      calc (fs.applyOps (.createTemp (p.dropLast ++ [tmpName]) ::
              (chunks.map (FsOp.appendTemp (p.dropLast ++ [tmpName])) ++
                [FsOp.renameFile (p.dropLast ++ [tmpName]) p]))).files p
          = ((fs.applyOps (.createTemp (p.dropLast ++ [tmpName]) ::
              chunks.map (FsOp.appendTemp (p.dropLast ++ [tmpName])))).applyOp
                (FsOp.renameFile (p.dropLast ++ [tmpName]) p)).files p := by
            simp [FS.applyOps, List.foldl_append]
        _ = some ⟨chunks.flatten, true⟩ := by
            simp only [FS.applyOp]
            rw [hstage]
            exact files_setFile_self _ _ _

/-- `..` resolution over a path that has no `..` of its own and ends in one
`..` yields the parent directory. -/
theorem resolveDots_append_dotdot :
    ∀ (l acc : FsPath), dotdot ∉ l →
      resolveDots acc (l ++ [dotdot]) = (acc ++ l).dropLast := by
  intro l
  induction l with
  | nil =>
    intro acc _
    simp [resolveDots]
  | cons c cs ih =>
    intro acc hmem
    have hc : c ≠ dotdot := fun h => hmem (by simp [h])
    calc resolveDots acc ((c :: cs) ++ [dotdot])
        = resolveDots (acc ++ [c]) (cs ++ [dotdot]) := by
          simp [resolveDots, hc]
      _ = ((acc ++ [c]) ++ cs).dropLast := ih _ (fun h => hmem (by simp [h]))
      _ = (acc ++ c :: cs).dropLast := by simp

/-! ## Claim theorems -/

/-- C4 (amended): `hash_to_file` returns `BadRequest` exactly when the
token is shorter than 20 bytes; for a token of length at least 20 it
returns `root/token[0:2]/token ++ ".zip"` provided byte index 2 of the
token is a UTF-8 character boundary (otherwise the Rust byte slice
`&hash[..2]` panics instead of returning, see the counterexample). -/
theorem hash_to_file_contract (root : FsPath) (hash : ByteStr) :
    (hash_to_file root hash = some (.error .badRequest) ↔ hash.length < 20) ∧
    (20 ≤ hash.length → isCharBoundary hash 2 = true →
      hash_to_file root hash
        = some (.ok (root ++ [hash.take 2, hash ++ zipSuffix]))) := by
  constructor
  · constructor
    · intro h
      exact (hash_to_file_error_inv h).2
    · intro h
      simp [hash_to_file, h]
  · intro h1 h2
    simp [hash_to_file, Nat.not_lt.2 h1, h2]

/-- C4 (counterexample to the claim as stated): for the 20-character token
`"€" ++ 19 × "a"` (22 bytes, so not rejected as too short), `hash_to_file`
does not return the claimed path — the byte slice `&hash[..2]` panics
because byte index 2 falls inside the first character. -/
theorem hash_to_file_nonascii_counterexample :
    20 ≤ euroA.length ∧
    hash_to_file dataRoot euroA
      ≠ some (.ok (dataRoot ++ [euroA.take 2, euroA ++ zipSuffix])) := by
  decide

/-- C5 (amended): path resolution succeeds for every token of length at
least 20 bytes whose byte index 2 is a UTF-8 character boundary (in
particular, every ASCII token). -/
theorem hash_to_file_total_on_char_boundary (root : FsPath) (hash : ByteStr)
    (hlen : 20 ≤ hash.length) (hb : isCharBoundary hash 2 = true) :
    ∃ p, hash_to_file root hash = some (.ok p) :=
  ⟨root ++ [hash.take 2, hash ++ zipSuffix], by
    simp [hash_to_file, Nat.not_lt.2 hlen, hb]⟩

/-- C5 (counterexample to the claim as stated): the token made of 20 copies
of `"€"` has 20 characters and 60 bytes, yet resolution does not succeed:
the byte slice `&hash[..2]` panics (modelled as `none`). -/
theorem hash_to_file_panics_counterexample :
    20 ≤ euro20.length ∧ hash_to_file dataRoot euro20 = none := by
  decide

/-- C7 (amended): `cache_get` never reports `InternalError`: every failure
of `fs::metadata` or `File::open` — absence and permission denial alike —
is mapped to `NotFound`, and a short hash to `BadRequest`. -/
theorem fetch_failure_statuses (root : FsPath) (fs : FS) (hash : ByteStr)
    (s : StatusCode) (h : cache_get root fs hash = some (.error s)) :
    s = .badRequest ∨ s = .notFound := by
  unfold cache_get at h
  split at h
  · simp at h
  · rename_i e heq
    simp only [Option.some.injEq, Except.error.injEq] at h
    subst h
    exact Or.inl (hash_to_file_error_inv heq).1
  · split at h
    · simp only [Option.some.injEq, Except.error.injEq] at h
      subst h
      exact Or.inr rfl
    · split at h
      · simp only [Option.some.injEq, Except.error.injEq] at h
        subst h
        exact Or.inr rfl
      · simp at h

/-- C7 (counterexample to the claim as stated): a filesystem on which the
resolved object exists but is not readable by the process — `File::open`
fails with `PermissionDenied`, not with absence — still makes `cache_get`
answer `NotFound`, never `InternalError`. -/
theorem fetch_permission_denied_counterexample :
    (fsPerm.files aHashPath).isSome = true ∧
    cache_get dataRoot fsPerm aHash = some (.error .notFound) := by
  decide

/-- C8: every operation addressed by a token shorter than 20 bytes returns
`BadRequest` and leaves the filesystem exactly as it was. -/
theorem short_token_rejected_without_fs_effects (root : FsPath) (fs : FS)
    (hash tmpName : ByteStr) (stream : List StreamItem)
    (hlen : hash.length < 20) :
    cache_get root fs hash = some (.error .badRequest) ∧
    cache_head root fs hash = some (.error .badRequest) ∧
    cache_put root fs hash tmpName stream = some (.error .badRequest, fs) := by
  refine ⟨?_, ?_, ?_⟩ <;>
    simp [cache_get, cache_head, cache_put, cache_put_core, hash_to_file, hlen]

/-- C1: whenever `cache_put` on a resolvable hash fails — shard-directory
creation failure or stream/write failure, all of which happen before the
final rename — the entry at the resolved destination path is unchanged
(previous object or absence alike), and the staging path is never the
destination path (staging names have 10 bytes, destination file names at
least 24). -/
theorem store_binary_failure_leaves_destination_unchanged (root : FsPath)
    (fsCheck fs : FS) (hash tmpName : ByteStr) (stream : List StreamItem)
    (p : FsPath) (s : StatusCode) (fs1 : FS)
    (hres : hash_to_file root hash = some (.ok p))
    (htmp : tmpName.length = 10)
    (hrun : cache_put_core root fsCheck fs hash tmpName stream
      = some (.error s, fs1)) :
    fs1.files p = fs.files p ∧ p.dropLast ++ [tmpName] ≠ p := by
  have hne := tmpPath_ne_dest hres htmp
  refine ⟨?_, hne⟩
  have hpt : p ≠ p.dropLast ++ [tmpName] := fun h => hne h.symm
  unfold cache_put_core at hrun
  split at hrun
  · simp at hrun
  · rename_i e heq
    rw [hres] at heq
    simp at heq
  · rename_i q heq
    rw [hres] at heq
    simp only [Option.some.injEq, Except.ok.injEq] at heq
    subst heq
    split at hrun
    · simp only [Option.some.injEq, Prod.mk.injEq] at hrun
      rw [← hrun.2]
    · rename_i fsd hdp
      split at hrun
      · rename_i a fs2 hw
        simp only [Option.some.injEq, Prod.mk.injEq] at hrun
        cases hcopy : copyStream stream with
        | error e2 =>
          rw [write_stream_to_file_error hcopy] at hw
          simp only [Prod.mk.injEq] at hw
          rw [← hrun.2, ← hw.2, files_removeFile_other _ _ _ hpt,
            files_setFile_other _ _ _ _ hpt, ensure_parent_dir_ok_files hdp]
        | ok data =>
          rw [write_stream_to_file_ok hcopy] at hw
          simp at hw
      · simp at hrun

/-- C2 (amended): `asset_put` does not write the destination directly — it
invokes the same staging-and-rename `write_stream_to_file` as the binary
cache, so any failed store leaves the previous asset content (or absence)
at the destination unchanged; no truncated file appears there.  (The
staging name chosen by the tempfile library is assumed distinct from the
asset's own file name, which the `O_EXCL` fresh-name creation guarantees
whenever the destination exists.) -/
theorem store_asset_failure_leaves_destination_unchanged (assetRoot : FsPath)
    (fs : FS) (name tmpName : ByteStr) (stream : List StreamItem)
    (s : StatusCode) (fs1 : FS) (hne : tmpName ≠ name)
    (hrun : asset_put assetRoot fs name tmpName stream = (.error s, fs1)) :
    fs1.files (asset_path assetRoot name) = fs.files (asset_path assetRoot name) := by
  have hdrop : (asset_path assetRoot name).dropLast ++ [tmpName]
      = assetRoot ++ [tmpName] := by
    unfold asset_path
    rw [List.dropLast_concat]
  have hpt : asset_path assetRoot name ≠ assetRoot ++ [tmpName] := by
    unfold asset_path
    intro h
    exact hne (by simpa using (List.append_cancel_left h).symm)
  unfold asset_put at hrun
  cases hcopy : copyStream stream with
  | error e =>
    rw [write_stream_to_file_error hcopy, hdrop] at hrun
    simp only [Prod.mk.injEq] at hrun
    rw [← hrun.2, files_removeFile_other _ _ _ hpt,
      files_setFile_other _ _ _ _ hpt]
  | ok data =>
    rw [write_stream_to_file_ok hcopy] at hrun
    simp at hrun

/-- C2 (counterexample to the claim as stated): a store to the asset
`"a/n"`, which currently holds `[1, 2, 3]`, whose stream fails after the
open, leaves the destination with `[1, 2, 3]` intact — not truncated, not
corrupted — because `asset_put` stages and renames exactly like the binary
path. -/
theorem store_asset_truncation_counterexample :
    (asset_put assetRoot0 fsAsset assetName0 tmpName0 [StreamItem.ioErr]).1
        = .error .internalServerError ∧
    (asset_put assetRoot0 fsAsset assetName0 tmpName0 [StreamItem.ioErr]).2.files
        (asset_path assetRoot0 assetName0) = some ⟨[1, 2, 3], true⟩ := by
  constructor
  · rfl
  · rfl

/-- C3 (amended): the shard-directory phase of `cache_put` skips creation
only when its own earlier `exists()` check saw the directory; when the
check saw it absent and the directory has come into existence by the time
`fs::create_dir` runs — exactly the concurrent-creator race — the
`AlreadyExists` failure is propagated as `InternalError` like every other
creation failure, not treated as success. -/
theorem mkdir_already_exists_race_returns_internal_error (root : FsPath)
    (fsCheck fs : FS) (hash tmpName : ByteStr) (stream : List StreamItem)
    (p : FsPath) (hres : hash_to_file root hash = some (.ok p))
    (hcheck : fsCheck.hasDir p.dropLast = false)
    (hrace : fs.hasDir p.dropLast = true) :
    cache_put_core root fsCheck fs hash tmpName stream
      = some (.error .internalServerError, fs) := by
  unfold cache_put_core
  rw [hres]
  simp [ensure_parent_dir, hcheck, FS.create_dir, hrace]

/-- C3 (counterexample to the claim as stated): with the shard directory of
`aHash` absent at the `exists()` check (`fs0`) but present at the
`create_dir` call (`fsDir`), StoreBinary returns `InternalError` — the
"already exists" creation failure is not treated as success. -/
theorem mkdir_race_counterexample :
    cache_put_core dataRoot fs0 fsDir aHash tmpName0 []
      = some (.error .internalServerError, fsDir) := rfl

/-- C6: a successful `cache_put` of the byte chunks `chunks` at a hash,
followed by `cache_get` of the same hash on the resulting filesystem,
returns status OK with exactly the stored bytes, and a content length equal
to their number. -/
theorem store_binary_then_fetch_roundtrip (root : FsPath) (fs : FS)
    (hash tmpName : ByteStr) (chunks : List (List Nat)) (fs1 : FS)
    (hrun : cache_put root fs hash tmpName (chunks.map .chunk)
      = some (.ok (), fs1)) :
    cache_get root fs1 hash = some (.ok ⟨chunks.flatten.length, chunks.flatten⟩) := by
  unfold cache_put cache_put_core at hrun
  split at hrun
  · simp at hrun
  · simp at hrun
  · rename_i p heq
    split at hrun
    · simp at hrun
    · rename_i fsd hdp
      split at hrun
      · rename_i a fs2 hw
        simp at hrun
      · rename_i a fs2 hw
        simp only [Option.some.injEq, Prod.mk.injEq, true_and] at hrun
        rw [write_stream_to_file_ok (copyStream_chunks chunks)] at hw
        simp only [Prod.mk.injEq] at hw
        exact cache_get_of_entry heq
          (by rw [← hrun, ← hw.2]; exact files_setFile_self _ _ _)

/-- C9: against a filesystem holding the readable object `B1` at the
resolved path of `hash`, a `cache_put` of `chunks` proceeds by the atomic
steps `putOps` — and the net effect of `write_stream_to_file` agrees with
those steps at every path (first conjunct) — and a `cache_get` run at any
intermediate point (after any number `n` of completed steps) returns either
exactly `B1` or exactly the complete new object, each with a matching
content length: the destination is only ever changed by the single rename
step. -/
theorem fetch_racing_store_binary_sees_old_or_new (root : FsPath) (fs : FS)
    (hash tmpName : ByteStr) (chunks : List (List Nat)) (p : FsPath)
    (B1 : List Nat) (hres : hash_to_file root hash = some (.ok p))
    (hB1 : fs.files p = some ⟨B1, true⟩) (htmp : tmpName.length = 10)
    (n : Nat) :
    (∀ q, (write_stream_to_file fs p tmpName (chunks.map .chunk)).2.files q
        = (fs.applyOps (putOps p tmpName chunks)).files q) ∧
    (cache_get root (fs.applyOps ((putOps p tmpName chunks).take n)) hash
        = some (.ok ⟨B1.length, B1⟩) ∨
     cache_get root (fs.applyOps ((putOps p tmpName chunks).take n)) hash
        = some (.ok ⟨chunks.flatten.length, chunks.flatten⟩)) := by
  have hne := tmpPath_ne_dest hres htmp
  have hpt : p ≠ p.dropLast ++ [tmpName] := fun h => hne h.symm
  constructor
  · intro q
    rw [write_stream_to_file_ok (copyStream_chunks chunks)]
    have hsplit : fs.applyOps (putOps p tmpName chunks)
        = (fs.applyOps (FsOp.createTemp (p.dropLast ++ [tmpName]) ::
            chunks.map (FsOp.appendTemp (p.dropLast ++ [tmpName])))).applyOp
          (FsOp.renameFile (p.dropLast ++ [tmpName]) p) := by
      simp [putOps, FS.applyOps, List.foldl_append]
    rw [hsplit]
    have hstage := applyOps_stage_content (p.dropLast ++ [tmpName]) chunks fs
    simp only [FS.applyOp]
    rw [hstage]
    by_cases hq : q = p
    · subst hq
      rw [files_setFile_self, files_setFile_self]
    · rw [files_setFile_other _ _ _ _ hq, files_setFile_other _ _ _ _ hq]
      by_cases hqt : q = p.dropLast ++ [tmpName]
      · subst hqt
        rw [files_removeFile_self, files_removeFile_self]
      · rw [files_removeFile_other _ _ _ hqt, files_removeFile_other _ _ _ hqt,
          files_setFile_other _ _ _ _ hqt, files_setFile_other _ _ _ _ hqt]
        exact (applyOps_stage_frame _ _ hqt chunks fs).symm
  · rcases putOps_take_dest p tmpName chunks fs hne n with hold | hnew
    · left
      exact cache_get_of_entry hres (hold.trans hB1)
    · right
      exact cache_get_of_entry hres hnew

/-- C10: the asset destination `asset_root.join(name)` is not confined to
the asset root: the caller-supplied single-segment name `".."` resolves to
the parent of the asset root, which is not at or below the asset root (for
any non-empty asset root that does not itself contain a `..` component). -/
theorem asset_path_can_escape_asset_root (assetRoot : FsPath)
    (h1 : assetRoot ≠ []) (h2 : dotdot ∉ assetRoot) :
    ¬ isUnder assetRoot (osResolve (asset_path assetRoot dotdot)) := by
  intro hu
  unfold osResolve asset_path at hu
  rw [resolveDots_append_dotdot assetRoot [] h2] at hu
  unfold isUnder at hu
  have hlen := congrArg List.length hu
  simp only [List.length_take, List.length_dropLast, List.nil_append] at hlen
  have h0 : assetRoot.length ≠ 0 := fun h => h1 (List.length_eq_zero.mp h)
  omega

/-! ## Witnesses: the claim theorems applied at concrete inputs -/

/-- C1 witness: a store to `aHash` over `fsA` (which holds `[1, 2, 3]`
there) whose stream fails reports `InternalError` and leaves `[1, 2, 3]`
at the destination. -/
theorem store_binary_failure_unchanged_witness :
    ∃ fs1, cache_put dataRoot fsA aHash tmpName0 [StreamItem.ioErr]
        = some (.error .internalServerError, fs1) ∧
      fs1.files aHashPath = some ⟨[1, 2, 3], true⟩ := by
  refine ⟨_, rfl, ?_⟩
  have h := store_binary_failure_leaves_destination_unchanged dataRoot fsA fsA
    aHash tmpName0 [StreamItem.ioErr] aHashPath .internalServerError _
    rfl rfl rfl
  exact h.1.trans (by decide)

/-- C2 witness: a failing store to asset `"a/n"` leaves its previous
content `[1, 2, 3]` unchanged. -/
theorem store_asset_failure_unchanged_witness :
    ∃ fs1, asset_put assetRoot0 fsAsset assetName0 tmpName0
        [StreamItem.chunk [9], StreamItem.ioErr]
        = (.error .internalServerError, fs1) ∧
      fs1.files (asset_path assetRoot0 assetName0) = some ⟨[1, 2, 3], true⟩ := by
  refine ⟨_, rfl, ?_⟩
  have h := store_asset_failure_leaves_destination_unchanged assetRoot0
    fsAsset assetName0 tmpName0 [StreamItem.chunk [9], StreamItem.ioErr]
    .internalServerError _ (by decide) rfl
  exact h.trans (by decide)

/-- C3 witness: the already-exists race at a concrete input, via the
amended theorem. -/
theorem mkdir_race_internal_error_witness :
    cache_put_core dataRoot fs0 fsDir aHash tmpName0 [StreamItem.chunk [7]]
      = some (.error .internalServerError, fsDir) :=
  mkdir_already_exists_race_returns_internal_error dataRoot fs0 fsDir aHash
    tmpName0 [StreamItem.chunk [7]] aHashPath rfl (by decide) (by decide)

/-- C4 witness: the spec scenario — root `/data`, 23-character hash
`aaaaaaaaaaaaaaaaaaaaXYZ` — resolves to `/data/aa/aaaaaaaaaaaaaaaaaaaaXYZ.zip`. -/
theorem hash_to_file_contract_witness :
    hash_to_file dataRoot scenHash
      = some (.ok [[100, 97, 116, 97], [97, 97],
          [97, 97, 97, 97, 97, 97, 97, 97, 97, 97, 97, 97, 97, 97, 97, 97,
            97, 97, 97, 97, 88, 89, 90, 46, 122, 105, 112]]) := by
  have h := (hash_to_file_contract dataRoot scenHash).2 (by decide) (by decide)
  exact h.trans (by decide)

/-- C5 witness: resolution succeeds on the ASCII 20-byte hash `aHash`. -/
theorem hash_to_file_total_witness :
    ∃ p, hash_to_file dataRoot aHash = some (.ok p) :=
  hash_to_file_total_on_char_boundary dataRoot aHash (by decide) (by decide)

/-- C6 witness: storing the chunks `[5, 6]` then fetching returns exactly
`[5, 6]` with content length 2. -/
theorem store_binary_then_fetch_roundtrip_witness :
    ∃ fs1, cache_put dataRoot fs0 aHash tmpName0 [StreamItem.chunk [5, 6]]
        = some (.ok (), fs1) ∧
      cache_get dataRoot fs1 aHash = some (.ok ⟨2, [5, 6]⟩) := by
  refine ⟨_, rfl, ?_⟩
  have h := store_binary_then_fetch_roundtrip dataRoot fs0 aHash tmpName0
    [[5, 6]] _ rfl
  exact h

/-- C7 witness: fetching an absent hash yields `NotFound`, one of the two
statuses the amended theorem allows. -/
theorem fetch_failure_statuses_witness :
    cache_get dataRoot fs0 aHash = some (.error .notFound) ∧
    (StatusCode.notFound = .badRequest ∨ StatusCode.notFound = .notFound) :=
  ⟨by decide, fetch_failure_statuses dataRoot fs0 aHash .notFound (by decide)⟩

/-- C8 witness: the 2-byte token `"hi"` is rejected by all three
hash-addressed operations with `BadRequest` and without filesystem
changes. -/
theorem short_token_rejected_witness :
    cache_get dataRoot fsA [104, 105] = some (.error .badRequest) ∧
    cache_head dataRoot fsA [104, 105] = some (.error .badRequest) ∧
    cache_put dataRoot fsA [104, 105] tmpName0 [StreamItem.chunk [1]]
      = some (.error .badRequest, fsA) :=
  short_token_rejected_without_fs_effects dataRoot fsA [104, 105] tmpName0
    [StreamItem.chunk [1]] (by decide)

/-- C9 witness: two steps into a store of `[[9]]` over the existing object
`[1, 2, 3]`, a concurrent fetch sees one of the two complete objects. -/
theorem fetch_racing_store_binary_witness :
    (write_stream_to_file fsA aHashPath tmpName0
        ([[9]].map StreamItem.chunk)).2.files aHashPath
      = (fsA.applyOps (putOps aHashPath tmpName0 [[9]])).files aHashPath ∧
    (cache_get dataRoot (fsA.applyOps ((putOps aHashPath tmpName0 [[9]]).take 2)) aHash
        = some (.ok ⟨3, [1, 2, 3]⟩) ∨
     cache_get dataRoot (fsA.applyOps ((putOps aHashPath tmpName0 [[9]]).take 2)) aHash
        = some (.ok ⟨1, [9]⟩)) := by
  have h := fetch_racing_store_binary_sees_old_or_new dataRoot fsA aHash
    tmpName0 [[9]] aHashPath [1, 2, 3] rfl (by decide) (by decide) 2
  exact ⟨h.1 aHashPath, h.2⟩

/-- C10 witness: for the concrete asset root `"a"`, the name `".."`
resolves outside the root. -/
theorem asset_path_escape_witness :
    ¬ isUnder assetRoot0 (osResolve (asset_path assetRoot0 dotdot)) :=
  asset_path_can_escape_asset_root assetRoot0 (by decide) (by decide)

end VcpkgCache
